import Mathlib

/-
Verification of the bethel synchronization core: a shallow embedding of the
server room hub (server/hub, Go), the server persistence models
(server/models, Go), and the client sync engine and transport client
(client/src, TypeScript), with theorems checking the specification's claims
against these definitions.

Numeric coordinate fields (float64 / number in the sources) are modelled as
Int: no claim depends on real arithmetic over coordinates, only on equality
of whole records.
-/

namespace Bethel

/-- A point of a stroke (server/models/stroke.go `Point`, client types `Point`). -/
structure Point where
  x : Int
  y : Int
  pressure : Int
deriving DecidableEq, Repr

namespace Hub

/-- Connections are identified by their `Client.ID` (a UUID string assigned at
upgrade time in handlers/websocket.go); the Go hub keys its sets by client
pointer, and each accepted connection gets a fresh ID, so the string is a
faithful identity for distinct connections. -/
abbrev ConnId := String

/-- The fixed 8-entry palette from `NewHub` (server/hub/hub.go). -/
def hubColors : List String :=
  ["#FF3B30", "#007AFF", "#34C759", "#FF9500",
   "#AF52DE", "#5AC8FA", "#FF2D55", "#FFCC00"]

/-- One room's entry in `Hub.Rooms`: `none` when the key is absent from the
map, `some set` when present. `registerClient` and `unregisterClient` touch
only the entry of the client's own room, so the projection of the hub map to
a fixed room is exact for membership claims. The Go set
`map[*Client]bool` is modelled as a duplicate-free list. -/
abbrev RoomEntry := Option (List ConnId)

/-- The membership part of `registerClient` (server/hub/hub.go): lazily create
the set, compute the color from the current set size, insert the client.
Returns the updated entry and the assigned color. -/
def registerClient (entry : RoomEntry) (c : ConnId) : RoomEntry × String :=
  let set := entry.getD []
  let colorIndex := set.length % hubColors.length
  let color := hubColors.getD colorIndex ""
  let set2 := if c ∈ set then set else set ++ [c]
  (some set2, color)

/-- The membership part of `unregisterClient` (server/hub/hub.go): if the room
entry exists and holds the client, remove the client, and delete the entry
when the set becomes empty; otherwise no-op. -/
def unregisterClient (entry : RoomEntry) (c : ConnId) : RoomEntry :=
  match entry with
  | none => none
  | some set =>
    if c ∈ set then
      let set2 := set.erase c
      if set2 = [] then none else some set2
    else some set

/-- A membership operation on one room, as fed to `Hub.Run` over the
Register/Unregister channels. -/
inductive HubOp where
  | register (c : ConnId)
  | unregister (c : ConnId)
deriving DecidableEq, Repr

/-- One step of the hub main loop restricted to membership. -/
def hubStep (entry : RoomEntry) : HubOp → RoomEntry
  | .register c => (registerClient entry c).1
  | .unregister c => unregisterClient entry c

/-- Run a sequence of membership operations from the initial hub (no rooms). -/
def hubRun (ops : List HubOp) : RoomEntry :=
  ops.foldl hubStep none

/-- Specification-level set of currently registered connections: a register
not yet matched by a later unregister. -/
def registeredSet (ops : List HubOp) : List ConnId :=
  ops.foldl
    (fun s op =>
      match op with
      | .register c => if c ∈ s then s else s ++ [c]
      | .unregister c => s.erase c)
    []

/-- Number of connections the entry holds (`len(h.Rooms[roomID])`, 0 when the
key is absent). -/
def roomSize (entry : RoomEntry) : Nat := (entry.getD []).length

/-- One step of the specification-level fold of `registeredSet`. -/
def registeredStep (s : List ConnId) : HubOp → List ConnId
  | .register c => if c ∈ s then s else s ++ [c]
  | .unregister c => s.erase c

theorem registeredSet_eq_foldl (ops : List HubOp) :
    registeredSet ops = ops.foldl registeredStep [] := by
  unfold registeredSet
  congr 1

/-- Package a connection list as a room entry: absent when empty. -/
def optOf (s : List ConnId) : RoomEntry := if s = [] then none else some s

theorem optOf_getD (s : List ConnId) : (optOf s).getD [] = s := by
  by_cases h : s = [] <;> simp [optOf, h]

theorem hubStep_optOf (s : List ConnId) (op : HubOp) :
    hubStep (optOf s) op = optOf (registeredStep s op) := by
  cases op with
  | register c =>
    have hset : (optOf s).getD [] = s := optOf_getD s
    simp only [hubStep, registerClient, registeredStep, hset]
    by_cases hc : c ∈ s
    · have hne : s ≠ [] := by rintro rfl; simp at hc
      simp [hc, optOf, hne]
    · have hne : s ++ [c] ≠ [] := by simp
      simp [hc, optOf, hne]
  | unregister c =>
    by_cases hs : s = []
    · subst hs
      simp [hubStep, unregisterClient, optOf, registeredStep]
    · simp only [hubStep, unregisterClient, optOf, hs, if_false, registeredStep]
      by_cases hc : c ∈ s
      · simp [hc]
      · simp only [hc, if_false, List.erase_of_not_mem hc, hs]

theorem hubRun_foldl_optOf (ops : List HubOp) (s : List ConnId) :
    ops.foldl hubStep (optOf s) = optOf (ops.foldl registeredStep s) := by
  induction ops generalizing s with
  | nil => rfl
  | cons op ops ih =>
    simp only [List.foldl_cons, hubStep_optOf]
    exact ih _

theorem hubRun_eq_optOf (ops : List HubOp) :
    hubRun ops = optOf (registeredSet ops) := by
  have h0 : (none : RoomEntry) = optOf [] := rfl
  rw [hubRun, registeredSet_eq_foldl, h0, hubRun_foldl_optOf]

end Hub

open Hub in
/-- C6: for every sequence of register and unregister operations on one room,
the room's connection set (the hub entry's content) equals the set of
currently registered connections, its size is that set's size, and the
room's key is present in the hub map exactly when the size is at least one;
since this holds after every sequence, the key disappears in the very
unregister step that empties the set. -/
theorem hub_membership_invariant (ops : List HubOp) :
    (hubRun ops).getD [] = registeredSet ops ∧
    roomSize (hubRun ops) = (registeredSet ops).length ∧
    ((hubRun ops).isSome ↔ 1 ≤ roomSize (hubRun ops)) := by
  have h := hubRun_eq_optOf ops
  refine ⟨h ▸ optOf_getD _, ?_, ?_⟩
  · rw [roomSize, h, optOf_getD]
  · rw [roomSize, h, optOf_getD]
    by_cases hs : registeredSet ops = []
    · simp [optOf, hs]
    · simp only [optOf, hs, if_false]
      simp [Nat.one_le_iff_ne_zero, hs]

namespace Hub

/-- Iterated registration: the suffix of `registerClient` calls a room sees
when connections join one after another, collecting the assigned colors. -/
def registerAll (entry : RoomEntry) : List ConnId → RoomEntry × List String
  | [] => (entry, [])
  | c :: cs =>
    let p := registerClient entry c
    let q := registerAll p.1 cs
    (q.1, p.2 :: q.2)

/-- Colors assigned to each connection of `cs` joining, in order, a room that
starts absent from the hub map. -/
def colorsAssigned (cs : List ConnId) : List String := (registerAll none cs).2

theorem registerAll_colors (cs : List ConnId) (entry : RoomEntry)
    (hnodup : cs.Nodup) (hfresh : ∀ c ∈ cs, c ∉ entry.getD []) :
    (registerAll entry cs).2 =
      (List.range cs.length).map
        (fun k => hubColors.getD ((roomSize entry + k) % hubColors.length) "") := by
  induction cs generalizing entry with
  | nil => rfl
  | cons c cs ih =>
    have hc : c ∉ entry.getD [] := hfresh c (by simp)
    have hstep :
        registerClient entry c =
          (some (entry.getD [] ++ [c]),
           hubColors.getD ((entry.getD []).length % hubColors.length) "") := by
      simp [registerClient, hc]
    have hfresh2 : ∀ x ∈ cs, x ∉ (some (entry.getD [] ++ [c]) : RoomEntry).getD [] := by
      intro x hx
      simp only [Option.getD_some, List.mem_append, List.mem_singleton]
      rintro (hmem | rfl)
      · exact hfresh x (by simp [hx]) hmem
      · exact (List.nodup_cons.mp hnodup).1 hx
    have ih2 := ih (some (entry.getD [] ++ [c])) (List.nodup_cons.mp hnodup).2 hfresh2
    simp only [registerAll, hstep, ih2]
    have hsize : roomSize (some (entry.getD [] ++ [c]) : RoomEntry) = roomSize entry + 1 := by
      simp [roomSize]
    rw [hsize]
    rw [List.length_cons, List.range_succ_eq_map]
    simp only [List.map_cons, List.map_map, Nat.add_zero]
    refine List.cons_eq_cons.mpr ⟨?_, ?_⟩
    · rfl
    · apply List.map_congr_left
      intro k _
      simp only [Function.comp]
      congr 2
      omega

end Hub

open Hub in
/-- C7: color assignment is deterministic in join order: when distinct
connections register one after another into a room that is absent from the
hub map (no intervening unregisters), the k-th (0-indexed) of them is
assigned `hubColors[k mod 8]`, the index computed from the set size at
registration time; and any connection registering when the currently
registered set is empty (for example after the room dropped to zero and its
entry was deleted) is assigned `hubColors[0]`. -/
theorem color_assignment_by_join_order (cs : List ConnId) (hnodup : cs.Nodup)
    (k : Nat) (hk : k < cs.length) :
    (colorsAssigned cs).getD k "" = hubColors.getD (k % 8) "" ∧
    ∀ (ops : List HubOp) (c : ConnId), registeredSet ops = [] →
      (registerClient (hubRun ops) c).2 = hubColors.getD 0 "" := by
  constructor
  · have h := registerAll_colors cs none hnodup (by simp)
    rw [colorsAssigned, h]
    have hsize : roomSize (none : RoomEntry) = 0 := rfl
    rw [List.getD_eq_getElem?_getD, List.getElem?_map, List.getElem?_range hk]
    simp [hsize, hubColors]
  · intro ops c hempty
    rw [hubRun_eq_optOf, hempty]
    rfl

/-- Witness for C7 at concrete inputs: two distinct connections join an empty
room; the second gets the palette's second color, and a connection joining
after the room has emptied again gets the palette's first color. -/
theorem color_assignment_by_join_order_witness :
    (Hub.colorsAssigned ["a", "b"]).getD 1 "" = Hub.hubColors.getD (1 % 8) "" ∧
    (Hub.registerClient (Hub.hubRun [.register "x", .unregister "x"]) "y").2 =
      Hub.hubColors.getD 0 "" := by
  have h := color_assignment_by_join_order ["a", "b"] (by decide) 1 (by decide)
  exact ⟨h.1, h.2 [.register "x", .unregister "x"] "y" (by decide)⟩

namespace Models

/-- server/models/stroke.go `Stroke`; `CreatedAt` is an abstract timestamp. -/
structure Stroke where
  id : String
  roomId : String := ""
  points : List Point := []
  color : String := ""
  tool : String := ""
  createdAt : Nat := 0
  createdBy : String := ""
deriving DecidableEq, Repr

/-- server/models/text_block.go `TextBlock`. -/
structure TextBlock where
  id : String
  roomId : String := ""
  x : Int := 0
  y : Int := 0
  width : Int := 0
  height : Int := 0
  content : String := ""
  fontSize : Int := 0
  color : String := ""
  fontFamily : String := ""
  createdAt : Nat := 0
  updatedAt : Nat := 0
deriving DecidableEq, Repr

/-- server/models/text_block.go `TextBlockUpdate`: a partial field patch. -/
structure TextBlockUpdate where
  x : Option Int := none
  y : Option Int := none
  width : Option Int := none
  height : Option Int := none
  content : Option String := none
  fontSize : Option Int := none
  color : Option String := none
  fontFamily : Option String := none
deriving DecidableEq, Repr

end Models

namespace Hub

/-- The fields of the Go `Client` a message handler reads (server/hub/client.go):
the connection's id and its room. -/
structure ClientConn where
  id : String
  roomId : String
deriving DecidableEq, Repr

/-- server/hub/message.go `ClientMessage`: the untyped inbound JSON envelope.
Absent string fields decode to `""` and absent object fields to `none`,
matching Go's zero values for `string` and pointer/slice fields. -/
structure ClientMessage where
  type : String
  stroke : Option Models.Stroke := none
  strokeId : String := ""
  points : Option (List Point) := none
  textBlock : Option Models.TextBlock := none
  textBlockId : String := ""
  textUpdates : Option Models.TextBlockUpdate := none
  x : Int := 0
  y : Int := 0
deriving DecidableEq, Repr

/-- server/hub/message.go `ServerMessage`, with the same zero-value encoding of
absent fields. -/
structure ServerMessage where
  type : String
  stroke : Option Models.Stroke := none
  strokeId : String := ""
  points : Option (List Point) := none
  textBlock : Option Models.TextBlock := none
  textBlockId : String := ""
  textUpdates : Option Models.TextBlockUpdate := none
  x : Int := 0
  y : Int := 0
  color : String := ""
  participantId : String := ""
  errorText : String := ""
deriving DecidableEq, Repr

/-- The outward-visible acts a message handler performs after its persistence
call: a direct send to one connection's queue (`sendError`,
`client.Send <- data`) or a fan-out over the room's set
(`broadcastToRoom` excludes one client; `handleClearAll`'s inline loop
excludes nobody, encoded as `exclude = none`). -/
inductive Effect where
  | sendTo (target : String) (msg : ServerMessage)
  | broadcast (roomId : String) (msg : ServerMessage) (exclude : Option String)
deriving DecidableEq, Repr

/-- server/hub/message.go `sendError`: a typed error message to one client. -/
def sendError (client : ClientConn) (errMsg : String) : Effect :=
  .sendTo client.id { type := "error", errorText := errMsg }

/-- The result of the single persistence call a handler makes; the handlers
below are parameterized by it. -/
abbrev PersistResult := Except String Unit

/-- server/hub/message.go `handleStrokeAdd`: validate, stamp room and creator,
persist, then broadcast excluding the sender; on persistence error send a
typed error to the sender and stop. -/
def handleStrokeAdd (client : ClientConn) (msg : ClientMessage)
    (persist : PersistResult) : List Effect :=
  match msg.stroke with
  | none => []
  | some s =>
    let stroke := { s with roomId := client.roomId, createdBy := client.id }
    match persist with
    | .error _ => [sendError client "Failed to save stroke"]
    | .ok _ =>
      [.broadcast client.roomId
        { type := "stroke_add", stroke := some stroke, participantId := client.id }
        (some client.id)]

/-- server/hub/message.go `handleStrokeUpdate`: on persistence error it only
logs and returns (no error reply); on success broadcast excluding sender. -/
def handleStrokeUpdate (client : ClientConn) (msg : ClientMessage)
    (persist : PersistResult) : List Effect :=
  if msg.strokeId = "" ∨ msg.points = none then []
  else
    match persist with
    | .error _ => []
    | .ok _ =>
      [.broadcast client.roomId
        { type := "stroke_update", strokeId := msg.strokeId, points := msg.points,
          participantId := client.id }
        (some client.id)]

/-- server/hub/message.go `handleTextAdd`: like `handleStrokeAdd`, with an
error reply on persistence failure. -/
def handleTextAdd (client : ClientConn) (msg : ClientMessage)
    (persist : PersistResult) : List Effect :=
  match msg.textBlock with
  | none => []
  | some tb =>
    let textBlock := { tb with roomId := client.roomId }
    match persist with
    | .error _ => [sendError client "Failed to save text block"]
    | .ok _ =>
      [.broadcast client.roomId
        { type := "text_add", textBlock := some textBlock, participantId := client.id }
        (some client.id)]

/-- server/hub/message.go `handleTextUpdate`: on persistence error it only
logs and returns (no error reply). -/
def handleTextUpdate (client : ClientConn) (msg : ClientMessage)
    (persist : PersistResult) : List Effect :=
  if msg.textBlockId = "" ∨ msg.textUpdates = none then []
  else
    match persist with
    | .error _ => []
    | .ok _ =>
      [.broadcast client.roomId
        { type := "text_update", textBlockId := msg.textBlockId,
          textUpdates := msg.textUpdates, participantId := client.id }
        (some client.id)]

/-- server/hub/message.go `handleTextDelete`: on persistence error it only
logs and returns (no error reply). -/
def handleTextDelete (client : ClientConn) (msg : ClientMessage)
    (persist : PersistResult) : List Effect :=
  if msg.textBlockId = "" then []
  else
    match persist with
    | .error _ => []
    | .ok _ =>
      [.broadcast client.roomId
        { type := "text_delete", textBlockId := msg.textBlockId,
          participantId := client.id }
        (some client.id)]

/-- server/hub/message.go `handleCursorMove`: broadcast only, no persistence. -/
def handleCursorMove (client : ClientConn) (msg : ClientMessage) : List Effect :=
  [.broadcast client.roomId
    { type := "cursor_move", x := msg.x, y := msg.y, color := "",
      participantId := client.id }
    (some client.id)]

/-- server/hub/message.go `handleClearAll`: persist the room wipe; on error
send a typed error to the sender and stop; on success broadcast to the whole
room including the sender (its inline loop excludes nobody). -/
def handleClearAll (client : ClientConn) (persist : PersistResult) : List Effect :=
  match persist with
  | .error _ => [sendError client "Failed to clear room"]
  | .ok _ =>
    [.broadcast client.roomId
      { type := "clear_all", participantId := client.id }
      none]

/-- server/hub/message.go `HandleMessage`: dispatch on the type tag; the
`persist` argument is the outcome of the one persistence call the selected
handler makes (unused by `cursor_move`, which never persists). -/
def handleMessage (client : ClientConn) (msg : ClientMessage)
    (persist : PersistResult) : List Effect :=
  if msg.type = "stroke_add" then handleStrokeAdd client msg persist
  else if msg.type = "stroke_update" then handleStrokeUpdate client msg persist
  else if msg.type = "text_add" then handleTextAdd client msg persist
  else if msg.type = "text_update" then handleTextUpdate client msg persist
  else if msg.type = "text_delete" then handleTextDelete client msg persist
  else if msg.type = "cursor_move" then handleCursorMove client msg
  else if msg.type = "clear_all" then handleClearAll client persist
  else []

/-- One connection of the room as the broadcast machinery sees it: its id,
its outbound queue, and the queue's capacity (256 in handlers/websocket.go);
`client.Send <- data` under `select/default` drops the message when the
buffer is full. -/
structure ConnState where
  id : String
  sendQueue : List ServerMessage := []
  sendCap : Nat := 256
deriving DecidableEq, Repr

/-- Non-blocking enqueue onto a bounded queue: drop when full. -/
def enqueue (c : ConnState) (m : ServerMessage) : ConnState :=
  if c.sendQueue.length < c.sendCap then { c with sendQueue := c.sendQueue ++ [m] } else c

/-- Deliver one effect to the room's connection list: a direct send reaches
only the target's queue; a broadcast reaches every queue except the excluded
connection's (`broadcastToRoomUnsafe` / `handleClearAll`'s loop). -/
def applyEffect (conns : List ConnState) (eff : Effect) : List ConnState :=
  match eff with
  | .sendTo target m => conns.map (fun c => if c.id = target then enqueue c m else c)
  | .broadcast _ m exclude =>
    conns.map (fun c => if some c.id = exclude then c else enqueue c m)

def applyEffects (conns : List ConnState) (effs : List Effect) : List ConnState :=
  effs.foldl applyEffect conns

/-- The queue of the connection with the given id, as an observation on the
room's connection list. -/
def queueOf (conns : List ConnState) (cid : String) : Option (List ServerMessage) :=
  (conns.find? (fun c => c.id == cid)).map ConnState.sendQueue

/-- The six inbound message types whose handler persists a mutation. -/
def mutatingTypes : List String :=
  ["stroke_add", "stroke_update", "text_add", "text_update", "text_delete", "clear_all"]

theorem queueOf_map (g : ConnState → ConnState) (cid : String)
    (hg : ∀ c, (g c).id = c.id) (hfix : ∀ c, c.id = cid → g c = c)
    (l : List ConnState) :
    queueOf (l.map g) cid = queueOf l cid := by
  induction l with
  | nil => rfl
  | cons c l ih =>
    by_cases hc : c.id = cid
    · have h1 : ((g c).id == cid) = true := by simp [hg c, hc]
      have h2 : (c.id == cid) = true := by simp [hc]
      simp only [queueOf, List.map_cons, List.find?, h1, h2, hfix c hc]
    · have h1 : ((g c).id == cid) = false := by simp [hg c, hc]
      have h2 : (c.id == cid) = false := by simp [hc]
      simpa only [queueOf, List.map_cons, List.find?, h1, h2] using ih

theorem queueOf_applyEffects_sendTo (conns : List ConnState) (t : String)
    (m : ServerMessage) (cid : String) (h : cid ≠ t) :
    queueOf (applyEffects conns [.sendTo t m]) cid = queueOf conns cid := by
  show queueOf (conns.map _) cid = queueOf conns cid
  apply queueOf_map
  · intro c
    by_cases hc : c.id = t
    · by_cases hlen : c.sendQueue.length < c.sendCap <;> simp [hc, hlen, enqueue]
    · simp [hc]
  · intro c hcid
    have hne : ¬ c.id = t := by rw [hcid]; exact h
    simp [hne]

/-- On a persistence error, every mutating handler produces either no effect
at all or a single direct send to the originating sender. -/
theorem handleMessage_error_shape (client : ClientConn) (msg : ClientMessage)
    (e : String) (htype : msg.type ∈ mutatingTypes) :
    handleMessage client msg (Except.error e) = [] ∨
      ∃ em, handleMessage client msg (Except.error e) = [.sendTo client.id em] := by
  simp only [mutatingTypes, List.mem_cons, List.mem_singleton, List.not_mem_nil,
    or_false] at htype
  rcases htype with h | h | h | h | h | h <;> simp only [handleMessage, h] <;> norm_num
  · cases hstroke : msg.stroke with
    | none => exact Or.inl (by simp [handleStrokeAdd, hstroke])
    | some s =>
      refine Or.inr ⟨{ type := "error", errorText := "Failed to save stroke" }, ?_⟩
      simp [handleStrokeAdd, hstroke, sendError]
  · by_cases hv : msg.strokeId = "" ∨ msg.points = none
    · exact Or.inl (by simp [handleStrokeUpdate, hv])
    · exact Or.inl (by simp [handleStrokeUpdate, hv])
  · cases htb : msg.textBlock with
    | none => exact Or.inl (by simp [handleTextAdd, htb])
    | some tb =>
      refine Or.inr ⟨{ type := "error", errorText := "Failed to save text block" }, ?_⟩
      simp [handleTextAdd, htb, sendError]
  · by_cases hv : msg.textBlockId = "" ∨ msg.textUpdates = none
    · exact Or.inl (by simp [handleTextUpdate, hv])
    · exact Or.inl (by simp [handleTextUpdate, hv])
  · by_cases hv : msg.textBlockId = ""
    · exact Or.inl (by simp [handleTextDelete, hv])
    · exact Or.inl (by simp [handleTextDelete, hv])
  · refine Or.inr ⟨{ type := "error", errorText := "Failed to clear room" }, ?_⟩
    simp [handleClearAll, sendError]

end Hub

open Hub in
/-- C1: for every mutating inbound message type (stroke_add, stroke_update,
text_add, text_update, text_delete, clear_all), if the persistence call
fails the handler returns without invoking broadcast, so the outbound queue
of every connection other than the sender is left exactly as it was: no
other connection observes any message for the mutation. -/
theorem persist_fail_no_broadcast (client : ClientConn) (msg : ClientMessage)
    (e : String) (conns : List ConnState) (htype : msg.type ∈ mutatingTypes) :
    ∀ cid, cid ≠ client.id →
      queueOf (applyEffects conns (handleMessage client msg (Except.error e))) cid =
        queueOf conns cid := by
  intro cid hcid
  rcases handleMessage_error_shape client msg e htype with h | ⟨em, h⟩
  · rw [h]; rfl
  · rw [h]
    exact queueOf_applyEffects_sendTo conns client.id em cid hcid

open Hub in
/-- Witness for C1: a concrete room of two connections; a stroke_add whose
persistence fails leaves the other connection's queue untouched. -/
theorem persist_fail_no_broadcast_witness :
    queueOf
      (applyEffects [{ id := "alice" }, { id := "bob" }]
        (handleMessage ⟨"alice", "room1"⟩
          { type := "stroke_add", stroke := some { id := "s1" } }
          (Except.error "db down"))) "bob" =
      queueOf [{ id := "alice" }, { id := "bob" }] "bob" :=
  persist_fail_no_broadcast ⟨"alice", "room1"⟩
    { type := "stroke_add", stroke := some { id := "s1" } }
    "db down" [{ id := "alice" }, { id := "bob" }] (by decide) "bob" (by decide)

open Hub in
/-- C5 counterexample: a well-formed stroke_update whose persistence call
fails produces no effect at all — in particular no typed error message is
sent to the originating sender, contradicting the claim that every mutating
message type replies with a typed error on persistence failure. -/
theorem persist_error_reply_counterexample :
    handleMessage ⟨"alice", "room1"⟩
        { type := "stroke_update", strokeId := "s1", points := some [] }
        (Except.error "db down") = [] ∧
      ("s1" : String) ≠ "" ∧ (some ([] : List Point)) ≠ none := by
  refine ⟨?_, by decide, by decide⟩
  rfl

open Hub in
/-- C5 amended: on a persistence error, only stroke_add, text_add and
clear_all send a typed error message, and they send it to the originating
sender only (every other connection's queue is unchanged); stroke_update,
text_update and text_delete log the failure and send nothing to anyone. -/
theorem persist_error_reply_amended (client : ClientConn) (msg : ClientMessage)
    (e : String) (conns : List ConnState) :
    ((msg.type = "stroke_add" ∧ msg.stroke ≠ none) ∨
        (msg.type = "text_add" ∧ msg.textBlock ≠ none) ∨
        msg.type = "clear_all" →
      ∃ em, handleMessage client msg (Except.error e) = [.sendTo client.id em] ∧
        em.type = "error" ∧
        ∀ cid, cid ≠ client.id →
          queueOf (applyEffects conns (handleMessage client msg (Except.error e))) cid =
            queueOf conns cid) ∧
    (msg.type = "stroke_update" ∨ msg.type = "text_update" ∨ msg.type = "text_delete" →
      handleMessage client msg (Except.error e) = []) := by
  constructor
  · intro h
    have hshape : ∃ em, handleMessage client msg (Except.error e) =
        [Effect.sendTo client.id em] ∧ em.type = "error" := by
      rcases h with ⟨ht, hs⟩ | ⟨ht, hs⟩ | ht
      · cases hstroke : msg.stroke with
        | none => exact absurd hstroke hs
        | some s =>
          refine ⟨{ type := "error", errorText := "Failed to save stroke" }, ?_, rfl⟩
          simp [handleMessage, ht, handleStrokeAdd, hstroke, sendError]
      · cases htb : msg.textBlock with
        | none => exact absurd htb hs
        | some tb =>
          refine ⟨{ type := "error", errorText := "Failed to save text block" }, ?_, rfl⟩
          simp [handleMessage, ht, handleTextAdd, htb, sendError]
      · refine ⟨{ type := "error", errorText := "Failed to clear room" }, ?_, rfl⟩
        simp [handleMessage, ht, handleClearAll, sendError]
    obtain ⟨em, heq, htype⟩ := hshape
    refine ⟨em, heq, htype, ?_⟩
    intro cid hcid
    rw [heq]
    exact queueOf_applyEffects_sendTo conns client.id em cid hcid
  · rintro (ht | ht | ht)
    · by_cases hv : msg.strokeId = "" ∨ msg.points = none <;>
        simp [handleMessage, ht, handleStrokeUpdate, hv]
    · by_cases hv : msg.textBlockId = "" ∨ msg.textUpdates = none <;>
        simp [handleMessage, ht, handleTextUpdate, hv]
    · by_cases hv : msg.textBlockId = "" <;>
        simp [handleMessage, ht, handleTextDelete, hv]

open Hub in
/-- Witness for C5 amended: a concrete stroke_add with failing persistence
sends exactly one typed error to the sender and leaves the other
connection's queue unchanged. -/
theorem persist_error_reply_amended_witness :
    (∃ em, handleMessage ⟨"alice", "room1"⟩
        { type := "stroke_add", stroke := some { id := "s1" } }
        (Except.error "db down") = [.sendTo "alice" em] ∧ em.type = "error") ∧
    queueOf
      (applyEffects [{ id := "alice" }, { id := "bob" }]
        (handleMessage ⟨"alice", "room1"⟩
          { type := "stroke_add", stroke := some { id := "s1" } }
          (Except.error "db down"))) "bob" =
      queueOf [{ id := "alice" }, { id := "bob" }] "bob" := by
  obtain ⟨em, heq, htype, hq⟩ :=
    (persist_error_reply_amended ⟨"alice", "room1"⟩
      { type := "stroke_add", stroke := some { id := "s1" } }
      "db down" [{ id := "alice" }, { id := "bob" }]).1
      (Or.inl ⟨rfl, by decide⟩)
  exact ⟨⟨em, heq, htype⟩, hq "bob" (by decide)⟩

/-
Keyed collections. Both the JS `Map` built by `handleRoomState`
(useCollaboration.ts) and a Dexie table accessed by primary key
(client `db.strokes`, `db.textBlocks`) are collections keyed by an entity's
own `id` string: `map.set(s.id, s)` and `table.put(s)` insert or replace the
entry with that key, `map.get(k)` / `table.get(k)` fetch by key. They are
modelled uniformly as a list of entities with a key projection; insertion
order (which only affects render order, not any claim) is kept by replacing
in place or appending. -/

/-- Insert-or-replace by key: `Map.set(key b, b)` / Dexie `table.put(b)`. -/
def upsertBy {β : Type} (key : β → String) (m : List β) (b : β) : List β :=
  if m.any (fun x => key x == key b) then
    m.map (fun x => if key x == key b then b else x)
  else m ++ [b]

/-- Fetch by key: `Map.get(k)` / Dexie `table.get(k)`. -/
def lookupBy {β : Type} (key : β → String) (m : List β) (k : String) : Option β :=
  m.find? (fun x => key x == k)

/-- The last element of the list satisfying the predicate. -/
def findLast {β : Type} (p : β → Bool) : List β → Option β
  | [] => none
  | x :: xs =>
    match findLast p xs with
    | some y => some y
    | none => if p x then some x else none

theorem findLast_eq_none {β : Type} (p : β → Bool) (l : List β)
    (h : ∀ x ∈ l, p x = false) : findLast p l = none := by
  induction l with
  | nil => rfl
  | cons x l ih =>
    have hx : p x = false := h x (by simp)
    have ht : findLast p l = none := ih (fun y hy => h y (by simp [hy]))
    simp [findLast, ht, hx]

theorem lookupBy_cons {β : Type} (key : β → String) (x : β) (m : List β)
    (k : String) :
    lookupBy key (x :: m) k = if key x == k then some x else lookupBy key m k := by
  simp only [lookupBy, List.find?]
  cases h : key x == k <;> simp

theorem lookupBy_eq_none {β : Type} (key : β → String) (m : List β) (k : String)
    (h : ∀ x ∈ m, ¬ key x = k) : lookupBy key m k = none := by
  induction m with
  | nil => rfl
  | cons x m ih =>
    rw [lookupBy_cons]
    have hx : (key x == k) = false := by simp [h x (by simp)]
    rw [hx]
    simp only [Bool.false_eq_true, if_false]
    exact ih (fun y hy => h y (by simp [hy]))

theorem lookupBy_map_replace {β : Type} (key : β → String) (m : List β) (b : β)
    (k : String) (hk : ¬ key b = k) :
    lookupBy key (m.map (fun x => if key x == key b then b else x)) k =
      lookupBy key m k := by
  induction m with
  | nil => rfl
  | cons x m ih =>
    rw [List.map_cons, lookupBy_cons, lookupBy_cons]
    by_cases hx : (key x == key b) = true
    · have hxb : key x = key b := by simpa using hx
      have hbk : (key b == k) = false := by simp [hk]
      have hxk : (key x == k) = false := by rw [hxb]; exact hbk
      rw [if_pos hx, hbk, hxk]
      simp only [Bool.false_eq_true, if_false]
      exact ih
    · rw [if_neg hx]
      cases hxk : key x == k
      · simp only [Bool.false_eq_true, if_false]
        exact ih
      · simp

theorem lookupBy_map_hit {β : Type} (key : β → String) (m : List β) (b : β)
    (k : String) (hany : m.any (fun y => key y == key b) = true) (hbk : key b = k) :
    lookupBy key (m.map (fun x => if key x == key b then b else x)) k = some b := by
  induction m with
  | nil => simp at hany
  | cons x m ih =>
    rw [List.map_cons, lookupBy_cons]
    by_cases hx : (key x == key b) = true
    · have hb : (key b == k) = true := by simp [hbk]
      rw [if_pos hx, hb]
      simp
    · have hxk : (key x == k) = false := by
        have hxb : ¬ key x = key b := by simpa using hx
        have : ¬ key x = k := by rw [← hbk]; exact hxb
        simp [this]
      rw [if_neg hx, hxk]
      simp only [Bool.false_eq_true, if_false]
      apply ih
      have := hany
      simp only [List.any_cons, hx, Bool.false_or] at this
      simpa using this

theorem lookupBy_append_single {β : Type} (key : β → String) (m : List β) (b : β)
    (k : String) :
    lookupBy key (m ++ [b]) k =
      match lookupBy key m k with
      | some v => some v
      | none => if key b == k then some b else none := by
  induction m with
  | nil =>
    cases hbk : key b == k <;> simp [lookupBy, List.find?, hbk]
  | cons x m ih =>
    rw [List.cons_append, lookupBy_cons, lookupBy_cons]
    cases hxk : key x == k
    · simp only [Bool.false_eq_true, if_false]
      exact ih
    · simp

theorem lookupBy_upsertBy {β : Type} (key : β → String) (m : List β) (b : β)
    (k : String) :
    lookupBy key (upsertBy key m b) k =
      if key b == k then some b else lookupBy key m k := by
  by_cases hany : m.any (fun y => key y == key b) = true
  · rw [upsertBy, if_pos hany]
    cases hbk : key b == k
    · have hbk2 : ¬ key b = k := by simpa using hbk
      rw [lookupBy_map_replace key m b k hbk2]
      simp
    · have hbk2 : key b = k := by simpa using hbk
      rw [lookupBy_map_hit key m b k hany hbk2]
      simp
  · rw [upsertBy, if_neg hany, lookupBy_append_single]
    have hall : ∀ y ∈ m, ¬ key y = key b := by
      intro y hy hcon
      apply hany
      rw [List.any_eq_true]
      exact ⟨y, hy, by simp [hcon]⟩
    cases hbk : key b == k
    · cases hm : lookupBy key m k <;> simp [hbk, hm]
    · have hbk2 : key b = k := by simpa using hbk
      have hnone : lookupBy key m k = none := by
        apply lookupBy_eq_none
        intro y hy hcon
        exact hall y hy (hcon.trans hbk2.symm)
      simp [hnone, hbk]

theorem lookupBy_foldl_upsertBy {β : Type} (key : β → String) (l : List β)
    (m0 : List β) (k : String) :
    lookupBy key (l.foldl (upsertBy key) m0) k =
      match findLast (fun x => key x == k) l with
      | some v => some v
      | none => lookupBy key m0 k := by
  induction l generalizing m0 with
  | nil => rfl
  | cons x l ih =>
    simp only [List.foldl_cons]
    rw [ih]
    cases hfl : findLast (fun y => key y == k) l with
    | some v => simp [findLast, hfl]
    | none =>
      rw [lookupBy_upsertBy]
      cases hxk : key x == k <;> simp [findLast, hfl, hxk]

theorem findLast_filter {β : Type} (p q : β → Bool) (l : List β)
    (hpq : ∀ x, p x = true → q x = true) :
    findLast p (l.filter q) = findLast p l := by
  induction l with
  | nil => rfl
  | cons x l ih =>
    cases hq : q x
    · have hp : p x = false := by
        cases hpx : p x
        · rfl
        · exact absurd (hpq x hpx) (by simp [hq])
      simp only [List.filter_cons, hq, Bool.false_eq_true, if_false, ih, findLast, hp]
      cases findLast p l <;> simp
    · simp only [List.filter_cons, hq, if_true, findLast, ih]

theorem findLast_eq_none_of_filterMap {β : Type} (key : β → String)
    (f : String → Option β) (hf : ∀ id x, f id = some x → key x = id)
    (ids : List String) (k : String) (hk : k ∉ ids) :
    findLast (fun x => key x == k) (ids.filterMap f) = none := by
  apply findLast_eq_none
  intro y hy
  obtain ⟨id, hid, hfy⟩ := List.mem_filterMap.mp hy
  have hkey : key y = id := hf id y hfy
  have : ¬ key y = k := by
    intro hcon
    apply hk
    have : k = id := hcon.symm.trans hkey
    rw [this]
    exact hid
  simp [this]

theorem findLast_filterMap_of_mem {β : Type} (key : β → String)
    (f : String → Option β) (hf : ∀ id x, f id = some x → key x = id)
    (ids : List String) (hnodup : ids.Nodup) (k : String) (hk : k ∈ ids)
    (s : β) (hs : f k = some s) :
    findLast (fun x => key x == k) (ids.filterMap f) = some s := by
  induction ids with
  | nil => simp at hk
  | cons id ids ih =>
    have hnd := List.nodup_cons.mp hnodup
    rcases List.mem_cons.mp hk with rfl | hk2
    · rw [List.filterMap_cons, hs]
      have hnone : findLast (fun x => key x == k) (ids.filterMap f) =
          none := findLast_eq_none_of_filterMap key f hf ids k hnd.1
      have hps : (key s == k) = true := by simp [hf k s hs]
      simp [findLast, hnone, hps]
    · have htail := ih hnd.2 hk2
      rw [List.filterMap_cons]
      cases hfid : f id with
      | none => exact htail
      | some v => simp [findLast, htail]

theorem findLast_eq_find? {β : Type} (key : β → String) (l : List β) (k : String)
    (hnodup : (l.map key).Nodup) :
    findLast (fun x => key x == k) l = l.find? (fun x => key x == k) := by
  induction l with
  | nil => rfl
  | cons x l ih =>
    have hx : key x ∉ l.map key := (List.nodup_cons.mp hnodup).1
    have htail := ih (List.nodup_cons.mp hnodup).2
    cases hxk : key x == k
    · simp only [findLast, htail, List.find?, hxk]
      cases l.find? (fun y => key y == k) <;> simp
    · have hxk2 : key x = k := by simpa using hxk
      have hnone : findLast (fun y => key y == k) l = none := by
        apply findLast_eq_none
        intro y hy
        have hyk : ¬ key y = k := by
          intro hcon
          apply hx
          have hxy : key x = key y := hxk2.trans hcon.symm
          rw [hxy]
          exact List.mem_map_of_mem key hy
        simp [hyk]
      simp [findLast, hnone, List.find?, hxk]

namespace Client

/-- client/src/types `Stroke`: the client-side stroke record (the `items`
phantom field carries no data and is omitted). -/
structure Stroke where
  id : String
  roomId : String := ""
  points : List Point := []
  color : String := ""
  tool : String := ""
deriving DecidableEq, Repr

/-- client/src/types `TextBlock`. -/
structure TextBlock where
  id : String
  roomId : String := ""
  x : Int := 0
  y : Int := 0
  width : Int := 0
  height : Int := 0
  content : String := ""
  fontSize : Int := 0
  color : String := ""
  fontFamily : String := ""
deriving DecidableEq, Repr

/-- The `type` discriminator of a pending action (client/src/lib/db.ts
`PendingAction`, plus `clear_all`, which `SyncService.clearRoom` queues and
`SyncService.sync` replays). -/
inductive PendingActionType where
  | stroke_add
  | stroke_update
  | text_add
  | text_update
  | text_delete
  | room_update
  | clear_all
deriving DecidableEq, Repr

/-- A row of the durable `pendingActions` table (client/src/lib/db.ts):
auto-increment key `seq` (dexie `++id`), room, type, creation timestamp, and
the payload projected onto the three identifier fields the sync engine reads
(`payload.id`, `payload.strokeId`, `payload.textBlockId`); `""` models a JS
falsy field (absent or the empty string), matching the `||` and truthiness
guards in `SyncService.getPendingState`. -/
structure PendingAction where
  seq : Nat
  roomId : String := ""
  type : PendingActionType
  payloadId : String := ""
  payloadStrokeId : String := ""
  payloadTextBlockId : String := ""
  createdAt : Nat := 0
deriving DecidableEq, Repr

/-- `action.payload.id || action.payload.strokeId` for stroke actions. -/
def strokeKey (a : PendingAction) : String :=
  if a.payloadId ≠ "" then a.payloadId else a.payloadStrokeId

/-- `action.payload.id || action.payload.textBlockId` for text actions. -/
def textKey (a : PendingAction) : String :=
  if a.payloadId ≠ "" then a.payloadId else a.payloadTextBlockId

/-- Insert an action into a list sorted ascending by `createdAt`
(`sortBy('createdAt')` on the Dexie collection). -/
def insertByCreatedAt (a : PendingAction) : List PendingAction → List PendingAction
  | [] => [a]
  | b :: bs =>
    if a.createdAt ≤ b.createdAt then a :: b :: bs else b :: insertByCreatedAt a bs

/-- The pending log read back in creation-timestamp order, as both
`SyncService.sync` and `SyncService.getPendingState` do with
`.sortBy('createdAt')`. -/
def sortByCreatedAt (l : List PendingAction) : List PendingAction :=
  l.foldr insertByCreatedAt []

/-- A JS `Set<string>`: insertion-ordered and duplicate-free. `add` appends
when the element is absent; `delete` removes it. -/
def setAdd (s : List String) (k : String) : List String :=
  if k ∈ s then s else s ++ [k]

def setDelete (s : List String) (k : String) : List String :=
  s.filter (fun x => !(x == k))

/-- The four derived id sets of `SyncService.getPendingState`, each a JS
`Set<string>`. -/
structure PendingSets where
  dirtyStrokeIds : List String := []
  dirtyTextBlockIds : List String := []
  deletedStrokeIds : List String := []
  deletedTextBlockIds : List String := []
deriving DecidableEq, Repr

/-- One iteration of the `for (const action of actions)` loop in
`SyncService.getPendingState`: the latest action per id decides its
membership; an add/update removes the id from the deleted set, a delete
removes it from the dirty set. There is no `stroke_delete` case, and
`room_update`/`clear_all` touch no set. -/
def pendingStep (ps : PendingSets) (a : PendingAction) : PendingSets :=
  match a.type with
  | .stroke_add | .stroke_update =>
    if strokeKey a ≠ "" then
      { ps with
        dirtyStrokeIds := setAdd ps.dirtyStrokeIds (strokeKey a),
        deletedStrokeIds := setDelete ps.deletedStrokeIds (strokeKey a) }
    else ps
  | .text_add | .text_update =>
    if textKey a ≠ "" then
      { ps with
        dirtyTextBlockIds := setAdd ps.dirtyTextBlockIds (textKey a),
        deletedTextBlockIds := setDelete ps.deletedTextBlockIds (textKey a) }
    else ps
  | .text_delete =>
    if a.payloadTextBlockId ≠ "" then
      { ps with
        deletedTextBlockIds := setAdd ps.deletedTextBlockIds a.payloadTextBlockId,
        dirtyTextBlockIds := setDelete ps.dirtyTextBlockIds a.payloadTextBlockId }
    else ps
  | _ => ps

/-- The id-set part of `SyncService.getPendingState`: scan the room's pending
log chronologically and fold each action into the four sets. -/
def computePendingSets (log : List PendingAction) : PendingSets :=
  (sortByCreatedAt log).foldl pendingStep {}

/-- The entity part of `SyncService.getPendingState`: `bulkGet` the dirty ids
from the local table and keep the hits (`if (s) pendingStrokes.push(s)`). -/
def pendingOf {β : Type} (key : β → String) (table : List β)
    (dirty : List String) : List β :=
  dirty.filterMap (fun id => lookupBy key table id)

/-- The merge of `handleRoomState` (useCollaboration.ts), one entity kind at
a time: drop server entities whose id is in the deleted set, seed a map from
the surviving server entities, then overlay the pending (locally cached
dirty) entities — local overwrites server. -/
def mergeEntities {β : Type} (key : β → String)
    (serverEntities pendingEntities : List β) (deletedIds : List String) :
    List β :=
  let surviving := serverEntities.filter (fun x => !(decide (key x ∈ deletedIds)))
  let m := surviving.foldl (upsertBy key) []
  pendingEntities.foldl (upsertBy key) m

/-- The stroke half of `handleRoomState`: sets from the pending log, pending
strokes from the local cache, then the merge. -/
def handleRoomStateStrokes (log : List PendingAction) (strokeTable : List Stroke)
    (serverStrokes : List Stroke) : List Stroke :=
  let ps := computePendingSets log
  mergeEntities Stroke.id serverStrokes
    (pendingOf Stroke.id strokeTable ps.dirtyStrokeIds) ps.deletedStrokeIds

/-- The text-block half of `handleRoomState`. -/
def handleRoomStateTextBlocks (log : List PendingAction)
    (textTable : List TextBlock) (serverTextBlocks : List TextBlock) :
    List TextBlock :=
  let ps := computePendingSets log
  mergeEntities TextBlock.id serverTextBlocks
    (pendingOf TextBlock.id textTable ps.dirtyTextBlockIds) ps.deletedTextBlockIds

/-- The save phase at the end of `handleRoomState`
(`roomState.strokes?.forEach(s => SyncService.saveStroke(s, true))`):
`saveStroke` with `isRemote = true` is a plain `db.strokes.put`, applied to
every server stroke with no dirty/deleted filtering. -/
def refreshLocalStrokes (table serverStrokes : List Stroke) : List Stroke :=
  serverStrokes.foldl (upsertBy Stroke.id) table

/-- The save phase for text blocks
(`roomState.textBlocks?.forEach(tb => SyncService.saveTextBlock(tb, true))`). -/
def refreshLocalTextBlocks (table serverTextBlocks : List TextBlock) :
    List TextBlock :=
  serverTextBlocks.foldl (upsertBy TextBlock.id) table

theorem mem_setAdd {s : List String} {k x : String} :
    x ∈ setAdd s k ↔ x ∈ s ∨ x = k := by
  by_cases h : k ∈ s
  · simp only [setAdd, h, if_true]
    constructor
    · exact Or.inl
    · rintro (hx | rfl) <;> assumption
  · simp [setAdd, h]

theorem mem_setDelete {s : List String} {k x : String} :
    x ∈ setDelete s k ↔ x ∈ s ∧ ¬ x = k := by
  simp [setDelete, List.mem_filter]

theorem nodup_setAdd {s : List String} {k : String} (h : s.Nodup) :
    (setAdd s k).Nodup := by
  by_cases hk : k ∈ s
  · simpa [setAdd, hk] using h
  · simp only [setAdd, hk, if_false]
    exact List.Nodup.append h (List.nodup_singleton k) (by simpa using hk)

theorem nodup_setDelete {s : List String} {k : String} (h : s.Nodup) :
    (setDelete s k).Nodup := List.Nodup.filter _ h

/-- An id list pair with no common element. -/
def Disj (a b : List String) : Prop := ∀ k ∈ a, k ∉ b

theorem disj_setAdd_setDelete {a b : List String} {k : String} (h : Disj a b) :
    Disj (setAdd a k) (setDelete b k) := by
  intro x hx hxd
  obtain ⟨hxb, hxk⟩ := mem_setDelete.mp hxd
  rcases mem_setAdd.mp hx with hxa | rfl
  · exact h x hxa hxb
  · exact hxk rfl

theorem disj_setDelete_setAdd {a b : List String} {k : String} (h : Disj a b) :
    Disj (setDelete a k) (setAdd b k) := by
  intro x hx hxd
  obtain ⟨hxa, hxk⟩ := mem_setDelete.mp hx
  rcases mem_setAdd.mp hxd with hxb | rfl
  · exact h x hxa hxb
  · exact hxk rfl

/-- Invariant of the derived id sets: duplicate-free, and each dirty set
disjoint from its deleted set. -/
def GoodSets (ps : PendingSets) : Prop :=
  ps.dirtyStrokeIds.Nodup ∧ ps.dirtyTextBlockIds.Nodup ∧
  ps.deletedStrokeIds.Nodup ∧ ps.deletedTextBlockIds.Nodup ∧
  Disj ps.dirtyStrokeIds ps.deletedStrokeIds ∧
  Disj ps.dirtyTextBlockIds ps.deletedTextBlockIds

theorem goodSets_pendingStep (ps : PendingSets) (a : PendingAction)
    (h : GoodSets ps) : GoodSets (pendingStep ps a) := by
  obtain ⟨h1, h2, h3, h4, h5, h6⟩ := h
  cases ha : a.type <;> simp only [pendingStep, ha]
  case stroke_add | stroke_update =>
    by_cases hk : strokeKey a ≠ ""
    · rw [if_pos hk]
      exact ⟨nodup_setAdd h1, h2, nodup_setDelete h3, h4,
        disj_setAdd_setDelete h5, h6⟩
    · rw [if_neg hk]
      exact ⟨h1, h2, h3, h4, h5, h6⟩
  case text_add | text_update =>
    by_cases hk : textKey a ≠ ""
    · rw [if_pos hk]
      exact ⟨h1, nodup_setAdd h2, h3, nodup_setDelete h4, h5,
        disj_setAdd_setDelete h6⟩
    · rw [if_neg hk]
      exact ⟨h1, h2, h3, h4, h5, h6⟩
  case text_delete =>
    by_cases hk : a.payloadTextBlockId ≠ ""
    · rw [if_pos hk]
      exact ⟨h1, nodup_setDelete h2, h3, nodup_setAdd h4, h5,
        disj_setDelete_setAdd h6⟩
    · rw [if_neg hk]
      exact ⟨h1, h2, h3, h4, h5, h6⟩
  case room_update => exact ⟨h1, h2, h3, h4, h5, h6⟩
  case clear_all => exact ⟨h1, h2, h3, h4, h5, h6⟩

theorem goodSets_foldl (l : List PendingAction) (ps : PendingSets)
    (h : GoodSets ps) : GoodSets (l.foldl pendingStep ps) := by
  induction l generalizing ps with
  | nil => exact h
  | cons a l ih => exact ih _ (goodSets_pendingStep ps a h)

theorem goodSets_computePendingSets (log : List PendingAction) :
    GoodSets (computePendingSets log) :=
  goodSets_foldl _ {} ⟨List.nodup_nil, List.nodup_nil, List.nodup_nil,
    List.nodup_nil, fun _ h => absurd h (List.not_mem_nil _), fun _ h =>
    absurd h (List.not_mem_nil _)⟩

theorem lookupBy_key {β : Type} (key : β → String) (table : List β)
    (k : String) (x : β) (h : lookupBy key table k = some x) : key x = k := by
  have := List.find?_some h
  simpa using this

theorem mergeEntities_eq (key : β → String) (S pend : List β)
    (deleted : List String) (k : String) :
    lookupBy key (mergeEntities key S pend deleted) k =
      match findLast (fun x => key x == k) pend with
      | some v => some v
      | none =>
        match findLast (fun x => key x == k)
            (S.filter (fun x => !(decide (key x ∈ deleted)))) with
        | some v => some v
        | none => none := by
  simp only [mergeEntities]
  rw [lookupBy_foldl_upsertBy]
  cases findLast (fun x => key x == k) pend with
  | some v => rfl
  | none =>
    rw [lookupBy_foldl_upsertBy]
    cases findLast (fun x => key x == k)
        (S.filter (fun x => !(decide (key x ∈ deleted)))) with
    | some v => rfl
    | none => rfl

/-- Dirty ids win: a dirty id with a cached entity resolves to the cache's
version in the merged view. -/
theorem mergeEntities_dirty {β : Type} (key : β → String) (S table : List β)
    (dirty deleted : List String) (hnodup : dirty.Nodup) (k : String)
    (hk : k ∈ dirty) (s : β) (hs : lookupBy key table k = some s) :
    lookupBy key (mergeEntities key S (pendingOf key table dirty) deleted) k =
      some s := by
  rw [mergeEntities_eq]
  have hfl := findLast_filterMap_of_mem key (fun id => lookupBy key table id)
    (fun id x h => lookupBy_key key table id x h) dirty hnodup k hk s hs
  rw [pendingOf, hfl]

/-- Deleted ids are omitted: a deleted id resolves to nothing in the merged
view, even when present in the server snapshot. -/
theorem mergeEntities_deleted {β : Type} (key : β → String) (S table : List β)
    (dirty deleted : List String) (hdisj : Disj dirty deleted) (k : String)
    (hk : k ∈ deleted) :
    lookupBy key (mergeEntities key S (pendingOf key table dirty) deleted) k =
      none := by
  rw [mergeEntities_eq]
  have hpend : findLast (fun x => key x == k) (pendingOf key table dirty) = none := by
    apply findLast_eq_none
    intro y hy
    obtain ⟨id, hid, hfy⟩ := List.mem_filterMap.mp hy
    have hkey : key y = id := lookupBy_key key table id y hfy
    have : ¬ key y = k := by
      intro hcon
      exact hdisj id hid (by rw [← hkey, hcon]; exact hk)
    simp [this]
  have hserver : findLast (fun x => key x == k)
      (S.filter (fun x => !(decide (key x ∈ deleted)))) = none := by
    apply findLast_eq_none
    intro y hy
    have hq := List.of_mem_filter hy
    have hyd : key y ∉ deleted := by simpa using hq
    have : ¬ key y = k := fun hcon => hyd (by rw [hcon]; exact hk)
    simp [this]
  rw [hpend, hserver]

/-- Ids in neither set come from the server snapshot. -/
theorem mergeEntities_server {β : Type} (key : β → String) (S table : List β)
    (dirty deleted : List String) (hnodupS : (S.map key).Nodup) (k : String)
    (hk1 : k ∉ dirty) (hk2 : k ∉ deleted) :
    lookupBy key (mergeEntities key S (pendingOf key table dirty) deleted) k =
      lookupBy key S k := by
  rw [mergeEntities_eq]
  have hpend : findLast (fun x => key x == k) (pendingOf key table dirty) =
      none :=
    findLast_eq_none_of_filterMap key (fun id => lookupBy key table id)
      (fun id x h => lookupBy_key key table id x h) dirty k hk1
  have hserver : findLast (fun x => key x == k)
      (S.filter (fun x => !(decide (key x ∈ deleted)))) =
      lookupBy key S k := by
    rw [findLast_filter]
    · exact findLast_eq_find? key S k hnodupS
    · intro x hx
      have hxk : key x = k := by simpa using hx
      simp [hxk, hk2]
  rw [hpend, hserver]
  cases lookupBy key S k <;> rfl

end Client

open Client in
/-- C2: on receiving room_state, the merged view resolves every id in the
pending log's dirty set to the local cache's version of that entity (when
the cache holds one), omits every id in the deleted set even when the server
snapshot contains it, and resolves ids in neither set to the server
snapshot's version — for strokes and text blocks alike. -/
theorem room_state_merge_correct (log : List Client.PendingAction)
    (strokeTable serverStrokes : List Client.Stroke)
    (textTable serverTextBlocks : List Client.TextBlock) :
    (∀ k ∈ (computePendingSets log).dirtyStrokeIds, ∀ s,
        lookupBy Client.Stroke.id strokeTable k = some s →
        lookupBy Client.Stroke.id
          (handleRoomStateStrokes log strokeTable serverStrokes) k = some s) ∧
    (∀ k ∈ (computePendingSets log).deletedStrokeIds,
        lookupBy Client.Stroke.id
          (handleRoomStateStrokes log strokeTable serverStrokes) k = none) ∧
    ((serverStrokes.map Client.Stroke.id).Nodup →
      ∀ k, k ∉ (computePendingSets log).dirtyStrokeIds →
        k ∉ (computePendingSets log).deletedStrokeIds →
        lookupBy Client.Stroke.id
          (handleRoomStateStrokes log strokeTable serverStrokes) k =
          lookupBy Client.Stroke.id serverStrokes k) ∧
    (∀ k ∈ (computePendingSets log).dirtyTextBlockIds, ∀ tb,
        lookupBy Client.TextBlock.id textTable k = some tb →
        lookupBy Client.TextBlock.id
          (handleRoomStateTextBlocks log textTable serverTextBlocks) k = some tb) ∧
    (∀ k ∈ (computePendingSets log).deletedTextBlockIds,
        lookupBy Client.TextBlock.id
          (handleRoomStateTextBlocks log textTable serverTextBlocks) k = none) ∧
    ((serverTextBlocks.map Client.TextBlock.id).Nodup →
      ∀ k, k ∉ (computePendingSets log).dirtyTextBlockIds →
        k ∉ (computePendingSets log).deletedTextBlockIds →
        lookupBy Client.TextBlock.id
          (handleRoomStateTextBlocks log textTable serverTextBlocks) k =
          lookupBy Client.TextBlock.id serverTextBlocks k) := by
  obtain ⟨hn1, hn2, hn3, hn4, hd1, hd2⟩ := goodSets_computePendingSets log
  have hd1s : Disj (computePendingSets log).deletedStrokeIds
      (computePendingSets log).dirtyStrokeIds := fun k hk hk2 => hd1 k hk2 hk
  refine ⟨?_, ?_, ?_, ?_, ?_, ?_⟩
  · intro k hk s hs
    exact mergeEntities_dirty Client.Stroke.id serverStrokes strokeTable _ _ hn1 k hk s hs
  · intro k hk
    exact mergeEntities_deleted Client.Stroke.id serverStrokes strokeTable _ _ hd1 k hk
  · intro hnd k hk1 hk2
    exact mergeEntities_server Client.Stroke.id serverStrokes strokeTable _ _ hnd k hk1 hk2
  · intro k hk tb htb
    exact mergeEntities_dirty Client.TextBlock.id serverTextBlocks textTable _ _ hn2 k hk tb htb
  · intro k hk
    exact mergeEntities_deleted Client.TextBlock.id serverTextBlocks textTable _ _ hd2 k hk
  · intro hnd k hk1 hk2
    exact mergeEntities_server Client.TextBlock.id serverTextBlocks textTable _ _ hnd k hk1 hk2

open Client in
/-- Witness for C2 at concrete inputs: a log with one pending stroke_add of
id "a" and one pending text_delete of id "t1"; the merged view keeps the
cached stroke "a" over the server's version, omits text block "t1" although
the server still has it, and takes the untouched stroke "b" from the
server. -/
theorem room_state_merge_correct_witness :
    lookupBy Client.Stroke.id
        (handleRoomStateStrokes
          [{ seq := 1, roomId := "r", type := .stroke_add, payloadId := "a", createdAt := 1 },
           { seq := 2, roomId := "r", type := .text_delete, payloadTextBlockId := "t1", createdAt := 2 }]
          [{ id := "a", points := [⟨1, 2, 3⟩] }]
          [{ id := "a", points := [] }, { id := "b", points := [] }]) "a" =
      some { id := "a", points := [⟨1, 2, 3⟩] } ∧
    lookupBy Client.TextBlock.id
        (handleRoomStateTextBlocks
          [{ seq := 1, roomId := "r", type := .stroke_add, payloadId := "a", createdAt := 1 },
           { seq := 2, roomId := "r", type := .text_delete, payloadTextBlockId := "t1", createdAt := 2 }]
          [{ id := "t1", content := "local" }]
          [{ id := "t1", content := "server" }]) "t1" = none ∧
    lookupBy Client.Stroke.id
        (handleRoomStateStrokes
          [{ seq := 1, roomId := "r", type := .stroke_add, payloadId := "a", createdAt := 1 },
           { seq := 2, roomId := "r", type := .text_delete, payloadTextBlockId := "t1", createdAt := 2 }]
          [{ id := "a", points := [⟨1, 2, 3⟩] }]
          [{ id := "a", points := [] }, { id := "b", points := [] }]) "b" =
      lookupBy Client.Stroke.id
        [{ id := "a", points := [] }, { id := "b", points := [] }] "b" := by
  have h := room_state_merge_correct
    [{ seq := 1, roomId := "r", type := .stroke_add, payloadId := "a", createdAt := 1 },
     { seq := 2, roomId := "r", type := .text_delete, payloadTextBlockId := "t1", createdAt := 2 }]
    [{ id := "a", points := [⟨1, 2, 3⟩] }]
    [{ id := "a", points := [] }, { id := "b", points := [] }]
    [{ id := "t1", content := "local" }]
    [{ id := "t1", content := "server" }]
  exact ⟨h.1 "a" (by decide) _ (by decide),
    h.2.2.2.2.1 "t1" (by decide),
    h.2.2.1 (by decide) "b" (by decide) (by decide)⟩

open Client in
/-- C4 counterexample: the save phase of `handleRoomState` persists every
server stroke with `db.strokes.put`, without consulting the dirty set; with
id "a" dirty (a pending stroke_add) and differing local and server versions,
the local cache ends up holding the server's version — the dirty id is
overwritten with server data, contradicting the claim. -/
theorem refresh_overwrites_dirty_counterexample :
    "a" ∈ (computePendingSets
        [{ seq := 1, roomId := "r", type := .stroke_add, payloadId := "a",
           createdAt := 1 }]).dirtyStrokeIds ∧
    refreshLocalStrokes
        [{ id := "a", roomId := "r", points := [⟨1, 2, 3⟩], color := "#000000", tool := "pen" }]
        [{ id := "a", roomId := "r", points := [], color := "#000000", tool := "pen" }] =
      [{ id := "a", roomId := "r", points := [], color := "#000000", tool := "pen" }] ∧
    ({ id := "a", roomId := "r", points := [], color := "#000000", tool := "pen" } : Client.Stroke) ≠
      { id := "a", roomId := "r", points := [⟨1, 2, 3⟩], color := "#000000", tool := "pen" } := by
  decide

open Client in
/-- C4 amended: when a room snapshot is received, every server-provided
entity is persisted into the local durable cache as a refresh — including
entities whose ids are in the dirty or deleted sets, so a dirty id's cache
entry is overwritten with the server version; only ids absent from the
snapshot keep their cached value. -/
theorem refresh_cache_amended (strokeTable serverStrokes : List Client.Stroke)
    (textTable serverTextBlocks : List Client.TextBlock) (k : String) :
    ((serverStrokes.map Client.Stroke.id).Nodup → ∀ s,
        lookupBy Client.Stroke.id serverStrokes k = some s →
        lookupBy Client.Stroke.id (refreshLocalStrokes strokeTable serverStrokes) k =
          some s) ∧
    ((∀ s ∈ serverStrokes, ¬ s.id = k) →
        lookupBy Client.Stroke.id (refreshLocalStrokes strokeTable serverStrokes) k =
          lookupBy Client.Stroke.id strokeTable k) ∧
    ((serverTextBlocks.map Client.TextBlock.id).Nodup → ∀ tb,
        lookupBy Client.TextBlock.id serverTextBlocks k = some tb →
        lookupBy Client.TextBlock.id
          (refreshLocalTextBlocks textTable serverTextBlocks) k = some tb) ∧
    ((∀ tb ∈ serverTextBlocks, ¬ tb.id = k) →
        lookupBy Client.TextBlock.id
          (refreshLocalTextBlocks textTable serverTextBlocks) k =
          lookupBy Client.TextBlock.id textTable k) := by
  refine ⟨?_, ?_, ?_, ?_⟩
  · intro hnd s hs
    rw [refreshLocalStrokes, lookupBy_foldl_upsertBy,
      findLast_eq_find? Client.Stroke.id serverStrokes k hnd]
    rw [lookupBy] at hs
    rw [hs]
  · intro hall
    rw [refreshLocalStrokes, lookupBy_foldl_upsertBy]
    have hnone : findLast (fun x => Client.Stroke.id x == k) serverStrokes = none := by
      apply findLast_eq_none
      intro y hy
      simp [hall y hy]
    rw [hnone]
  · intro hnd tb htb
    rw [refreshLocalTextBlocks, lookupBy_foldl_upsertBy,
      findLast_eq_find? Client.TextBlock.id serverTextBlocks k hnd]
    rw [lookupBy] at htb
    rw [htb]
  · intro hall
    rw [refreshLocalTextBlocks, lookupBy_foldl_upsertBy]
    have hnone : findLast (fun x => Client.TextBlock.id x == k) serverTextBlocks = none := by
      apply findLast_eq_none
      intro y hy
      simp [hall y hy]
    rw [hnone]

open Client in
/-- Witness for C4 amended: a server stroke with id "a" replaces the cached
version, and an id absent from the snapshot keeps its cached value. -/
theorem refresh_cache_amended_witness :
    lookupBy Client.Stroke.id
        (refreshLocalStrokes [{ id := "a", points := [⟨1, 2, 3⟩] }]
          [{ id := "a", points := [] }]) "a" =
      some { id := "a", points := [] } ∧
    lookupBy Client.Stroke.id
        (refreshLocalStrokes [{ id := "z", points := [⟨1, 2, 3⟩] }]
          [{ id := "a", points := [] }]) "z" =
      lookupBy Client.Stroke.id [{ id := "z", points := [⟨1, 2, 3⟩] }] "z" := by
  constructor
  · exact (refresh_cache_amended [{ id := "a", points := [⟨1, 2, 3⟩] }]
      [{ id := "a", points := [] }] [] [] "a").1 (by decide) _ (by decide)
  · exact (refresh_cache_amended [{ id := "z", points := [⟨1, 2, 3⟩] }]
      [{ id := "a", points := [] }] [] [] "z").2.1 (by decide)

namespace Client

/-- The outcome of one replay pass of `SyncService.sync`: the wire messages
handed to the transport in dispatch order, and the rows still in the durable
`pendingActions` table afterwards. -/
structure SyncOutcome where
  sent : List PendingAction := []
  remaining : List PendingAction := []
deriving DecidableEq, Repr

/-- `SyncService.sync` (services/sync.ts): read the room's pending log sorted
by `createdAt`, and for each entry re-send the corresponding wire message,
then delete the entry from the log. The try/catch sits inside the `for`
loop: when a send throws (`sendFails`), the error is caught and logged and
the loop continues with the next entry — the failed entry stays in the log
because its `delete` was never reached. The `isSyncing` mutual-exclusion
flag and the 10 ms inter-send delay do not affect the outcome and are not
modelled. -/
def syncPass (sendFails : PendingAction → Bool) (log : List PendingAction) :
    SyncOutcome :=
  (sortByCreatedAt log).foldl
    (fun o a =>
      if sendFails a then { o with remaining := o.remaining ++ [a] }
      else { sent := o.sent ++ [a], remaining := o.remaining })
    {}

end Client

open Client in
/-- C3, divergence from the claim: with two pending actions in creation
order and the first send throwing, the pass does not abort — the second,
later entry is still sent and removed from the log; only the failed entry
itself remains queued. The inline comment in `SyncService.sync` announces
"abort sync ... to preserve order", but the catch block merely logs and the
loop continues. -/
theorem sync_continues_after_failed_send :
    syncPass (fun a => a.seq == 1)
        [{ seq := 1, roomId := "r", type := .stroke_add, payloadId := "a", createdAt := 1 },
         { seq := 2, roomId := "r", type := .stroke_add, payloadId := "b", createdAt := 2 }] =
      { sent := [{ seq := 2, roomId := "r", type := .stroke_add, payloadId := "b", createdAt := 2 }],
        remaining := [{ seq := 1, roomId := "r", type := .stroke_add, payloadId := "a", createdAt := 1 }] } ∧
    (1 : Nat) < 2 := by
  decide

namespace Client

/-- The reconnect-relevant state of `WebSocketClient`
(client/src/lib/websocket.ts): the two configurable knobs with their
defaults (3000 ms interval, 10 attempts), the attempt counter, the pending
reconnect timer (`some delay` when one is scheduled), and the two lifecycle
flags. -/
structure WSClientState where
  reconnectInterval : Nat := 3000
  maxReconnectAttempts : Nat := 10
  reconnectAttempts : Nat := 0
  reconnectTimeout : Option Nat := none
  isDestroyed : Bool := false
  isIntentionalClose : Bool := false
deriving DecidableEq, Repr

/-- The signals a `WebSocketClient` can surface to its caller through the
constructor callbacks. `maxAttemptsReached` is the "permanently
disconnected" signal the caller expects (`useCollaboration` passes an
`onMaxReconnectAttempts` callback that sets `isDisconnectedPermanently`);
it is listed here so the claim can be stated, but `WebSocketClientOptions`
declares no such callback and `attemptReconnect` only writes a console log
when the cap is reached, so no transition below ever emits it. -/
inductive CallerSignal where
  | connected
  | disconnected
  | errorEvent
  | maxAttemptsReached
deriving DecidableEq, Repr

/-- `WebSocketClient.attemptReconnect`: destroyed clients and clients at the
attempt cap return after (at most) a log line, invoking no callback;
otherwise the counter increments and a reconnect timer is scheduled at the
configured interval. Returns the new state and the signals surfaced. -/
def attemptReconnect (c : WSClientState) : WSClientState × List CallerSignal :=
  if c.isDestroyed || decide (c.reconnectAttempts ≥ c.maxReconnectAttempts) then
    (c, [])
  else
    ({ c with
        reconnectAttempts := c.reconnectAttempts + 1,
        reconnectTimeout := some c.reconnectInterval }, [])

/-- The `ws.onclose` handler: a destroyed client ignores the event; a
non-intentional close surfaces `disconnected` (the `onDisconnect` callback)
and calls `attemptReconnect`; an intentional close only surfaces
`disconnected`. -/
def handleClose (c : WSClientState) : WSClientState × List CallerSignal :=
  if c.isDestroyed then (c, [])
  else if !c.isIntentionalClose then
    let p := attemptReconnect c
    (p.1, .disconnected :: p.2)
  else (c, [.disconnected])

/-- Iterate `n` consecutive close events (each scheduled reconnect fails
again before opening, so the counter is never reset by `onopen`),
collecting every surfaced signal. -/
def closeTimes : Nat → WSClientState → WSClientState × List CallerSignal
  | 0, c => (c, [])
  | n + 1, c =>
    let p := handleClose c
    let q := closeTimes n p.1
    (q.1, p.2 ++ q.2)

end Client

open Client in
/-- C8, divergence from the claim: with the default configuration, ten
consecutive non-intentional closes each schedule a reconnect at the 3000 ms
interval and drive the counter to the cap of 10; the eleventh close changes
nothing (no further reconnect is ever attempted) but the only signals
surfaced across all eleven closes are `disconnected` — the "permanently
disconnected" signal the claim promises is never surfaced to the caller. -/
theorem reconnect_cap_no_signal :
    ((closeTimes 10 ({} : WSClientState)).1.reconnectAttempts = 10) ∧
    ((closeTimes 1 ({} : WSClientState)).1.reconnectTimeout = some 3000) ∧
    ((closeTimes 11 ({} : WSClientState)).1 = (closeTimes 10 ({} : WSClientState)).1) ∧
    ((closeTimes 11 ({} : WSClientState)).2.count CallerSignal.maxAttemptsReached = 0) ∧
    ((closeTimes 11 ({} : WSClientState)).2 =
      List.replicate 11 CallerSignal.disconnected) := by
  decide

namespace Models

/-- server/models/room.go `Room`. -/
structure Room where
  id : String
  title : String := ""
  createdAt : Nat := 0
  updatedAt : Nat := 0
deriving DecidableEq, Repr

/-- The persistence store's tables for rooms, strokes and text blocks. -/
structure Database where
  rooms : List Room := []
  strokes : List Stroke := []
  textBlocks : List TextBlock := []
deriving DecidableEq, Repr

/-- server/models/stroke.go `CreateStroke`: generate an id when none is
given, stamp the creation time, then run
`INSERT ... ON CONFLICT (id) DO NOTHING` — when a row with the id already
exists, the statement changes nothing and reports no error. `genId` stands
for `uuid.New().String()`, `now` for `time.Now()`, and `execFails` is the
infrastructure-failure oracle for the `pool.Exec` call (connection loss and
the like; a conflict is not a failure). -/
def CreateStroke (genId : String) (now : Nat) (execFails : Bool)
    (table : List Stroke) (s : Stroke) : List Stroke × Except String Unit :=
  let s1 := if s.id = "" then { s with id := genId } else s
  let s2 := { s1 with createdAt := now }
  if execFails then (table, .error "exec failed")
  else if table.any (fun t => t.id == s2.id) then (table, .ok ())
  else (table ++ [s2], .ok ())

/-- Which of `ClearRoom`'s five fallible steps fail. -/
structure ClearRoomFailures where
  failBegin : Bool := false
  failDeleteStrokes : Bool := false
  failDeleteTextBlocks : Bool := false
  failTouchRoom : Bool := false
  failCommit : Bool := false
deriving DecidableEq, Repr

/-- server/models/room.go `ClearRoom`: a single transaction (`pool.Begin`,
`defer tx.Rollback(ctx)`, `tx.Commit`) wrapping three statements — delete
the room's strokes, delete its text blocks, touch the room's `updated_at`.
In the embedding the transaction's pending writes accumulate on a copy; any
step's failure returns the original database (the deferred rollback
discards the transaction), and only a successful commit publishes the new
state. -/
def ClearRoom (roomId : String) (now : Nat) (f : ClearRoomFailures)
    (db : Database) : Database × Except String Unit :=
  if f.failBegin then (db, .error "begin failed") else
  if f.failDeleteStrokes then (db, .error "delete strokes failed") else
  let tx1 : Database :=
    { db with strokes := db.strokes.filter (fun s => !(s.roomId == roomId)) }
  if f.failDeleteTextBlocks then (db, .error "delete text blocks failed") else
  let tx2 : Database :=
    { tx1 with textBlocks := tx1.textBlocks.filter (fun tb => !(tb.roomId == roomId)) }
  if f.failTouchRoom then (db, .error "update room failed") else
  let touchRooms := tx2.rooms.map
    (fun r => if r.id == roomId then { r with updatedAt := now } else r)
  let tx3 : Database := { tx2 with rooms := touchRooms }
  if f.failCommit then (db, .error "commit failed") else
  (tx3, .ok ())

end Models

open Models in
/-- C9: persisting a stroke is idempotent on its id. With the insert's
`ON CONFLICT (id) DO NOTHING` semantics, a `CreateStroke` call whose id is
already present leaves the table unchanged and returns no error; in
particular a second call right after a first one (a replayed stroke_add
whose earlier send already reached the server) neither duplicates the
stroke nor fails. -/
theorem createStroke_idempotent (genId genId2 : String) (now now2 : Nat)
    (table : List Models.Stroke) (s : Models.Stroke) (hid : s.id ≠ "") :
    (table.any (fun t => t.id == s.id) = true →
      CreateStroke genId now false table s = (table, Except.ok ())) ∧
    (CreateStroke genId2 now2 false (CreateStroke genId now false table s).1 s =
      ((CreateStroke genId now false table s).1, Except.ok ())) := by
  have hs1 : (if s.id = "" then { s with id := genId } else s) = s := if_neg hid
  have hs1b : (if s.id = "" then { s with id := genId2 } else s) = s := if_neg hid
  constructor
  · intro hpresent
    simp only [CreateStroke, hs1, Bool.false_eq_true, if_false]
    have : ({ s with createdAt := now } : Models.Stroke).id = s.id := rfl
    rw [this] at hpresent ⊢
    simp [hpresent]
  · by_cases hpresent : table.any (fun t => t.id == s.id) = true
    · simp only [CreateStroke, hs1, hs1b, Bool.false_eq_true, if_false]
      simp [hpresent]
    · have hp2 : table.any (fun t => t.id == ({ s with createdAt := now } : Models.Stroke).id) = false := by
        simpa using hpresent
      simp only [CreateStroke, hs1, hs1b, Bool.false_eq_true, if_false, hp2]
      simp [List.any_append]

open Models in
/-- Witness for C9: the id "s1" is already in the table, so the call leaves
the table unchanged and reports success, and a second call after a fresh
insert is also a no-op. -/
theorem createStroke_idempotent_witness :
    CreateStroke "g" 5 false [{ id := "s1", createdAt := 1 }] { id := "s1" } =
      ([{ id := "s1", createdAt := 1 }], Except.ok ()) ∧
    CreateStroke "g2" 6 false
        (CreateStroke "g" 5 false [] ({ id := "s1" } : Models.Stroke)).1
        { id := "s1" } =
      ((CreateStroke "g" 5 false [] ({ id := "s1" } : Models.Stroke)).1,
        Except.ok ()) := by
  constructor
  · exact (createStroke_idempotent "g" "g2" 5 6 [{ id := "s1", createdAt := 1 }]
      { id := "s1" } (by decide)).1 (by decide)
  · exact (createStroke_idempotent "g" "g2" 5 6 []
      { id := "s1" } (by decide)).2

open Models in
/-- C10: `ClearRoom` is atomic. If any of its steps fails, the returned
database is exactly the input (the transaction rolled back); on success the
three effects — all of the room's strokes deleted, all of its text blocks
deleted, its `updated_at` touched — are published together. -/
theorem clearRoom_atomic (roomId : String) (now : Nat)
    (f : Models.ClearRoomFailures) (db : Models.Database) :
    (∀ e, (ClearRoom roomId now f db).2 = Except.error e →
      (ClearRoom roomId now f db).1 = db) ∧
    ((ClearRoom roomId now f db).2 = Except.ok () →
      (ClearRoom roomId now f db).1 =
        { rooms := db.rooms.map
            (fun r => if r.id == roomId then { r with updatedAt := now } else r),
          strokes := db.strokes.filter (fun s => !(s.roomId == roomId)),
          textBlocks := db.textBlocks.filter (fun tb => !(tb.roomId == roomId)) }) := by
  obtain ⟨b1, b2, b3, b4, b5⟩ := f
  cases b1 <;> cases b2 <;> cases b3 <;> cases b4 <;> cases b5 <;>
    simp [ClearRoom]

open Models in
/-- Witness for C10: on a concrete database, a failing third step returns
the database unchanged, and the all-success run clears both tables for the
room and touches its timestamp, leaving the other room's stroke alone. -/
theorem clearRoom_atomic_witness :
    (ClearRoom "r" 7 { failTouchRoom := true }
        { rooms := [{ id := "r", updatedAt := 1 }],
          strokes := [{ id := "s1", roomId := "r" }, { id := "s2", roomId := "q" }],
          textBlocks := [{ id := "t1", roomId := "r" }] }).1 =
      { rooms := [{ id := "r", updatedAt := 1 }],
        strokes := [{ id := "s1", roomId := "r" }, { id := "s2", roomId := "q" }],
        textBlocks := [{ id := "t1", roomId := "r" }] } ∧
    (ClearRoom "r" 7 {}
        { rooms := [{ id := "r", updatedAt := 1 }],
          strokes := [{ id := "s1", roomId := "r" }, { id := "s2", roomId := "q" }],
          textBlocks := [{ id := "t1", roomId := "r" }] }).1 =
      { rooms := [{ id := "r", updatedAt := 7 }],
        strokes := [{ id := "s2", roomId := "q" }],
        textBlocks := [] } := by
  constructor
  · exact (clearRoom_atomic "r" 7 { failTouchRoom := true }
      { rooms := [{ id := "r", updatedAt := 1 }],
        strokes := [{ id := "s1", roomId := "r" }, { id := "s2", roomId := "q" }],
        textBlocks := [{ id := "t1", roomId := "r" }] }).1
      "update room failed" rfl
  · exact ((clearRoom_atomic "r" 7 {}
      { rooms := [{ id := "r", updatedAt := 1 }],
        strokes := [{ id := "s1", roomId := "r" }, { id := "s2", roomId := "q" }],
        textBlocks := [{ id := "t1", roomId := "r" }] }).2 rfl).trans
      (by decide)

end Bethel
